import Mathlib

/-!
Shallow embedding of the repository's `AudioService` (look-ahead beat scheduler,
pattern generator, synthesis-trigger emission, mix-bus mute handling and the
impulse-response generator).

Modelling conventions:
* Times, frequencies, gains and tempo values are exact rationals (`ℚ`); the
  source's decimal literals (`0.1`, `0.25`, `130.81`, ...) are the same exact
  decimal fractions in `ℚ`.
* The audio backend (`AudioContext`) is modelled by a `hasCtx : Bool` flag
  (created by `init`), the backend clock `ctx.currentTime` is passed to each
  operation as an explicit `now : ℚ` argument, and the backend sample rate is
  an explicit argument of `createImpulseResponse`.
* `Math.random()` draws are explicit inputs: single draws `r : ℚ` with
  `0 ≤ r < 1`, or streams `ℕ → ℚ` where a loop consumes one draw per
  iteration / per sample.
* Voice creation (`playKick`, `playSynth`, oscillators, envelopes, ...) is
  fire-and-forget in the source: the service hands a voice with its start time
  and parameters to the audio engine and never revisits it, and it never
  writes any service field.  A scheduled voice is therefore modelled as a
  `Trigger` value carrying the instrument and the parameters the source passes
  (start time, frequency, duration), and each operation returns the list of
  triggers it hands to the engine, in hand-off order.
* `window.setTimeout`/`clearTimeout` self-rescheduling is modelled by a
  `timerActive : Bool` flag: `scheduler` arms it, `stopBGM`'s `clearTimeout`
  clears it.
* `masterGain.gain` automation is modelled by the current automation target
  (`gainTarget`) plus the trace of automation commands issued (`gainEvents`).
* The impulse-response decay exponent is modelled as a natural number
  (the source calls `Math.pow(base, decay)` with `decay = 2.0`).
-/

namespace NeonSliceAudio

/-- Intensity mode of the background music (source type `'low' | 'high'`). -/
inductive Intensity where
  | low
  | high
deriving DecidableEq

/-- A voice handed to the audio engine: instrument plus the parameters the
source passes to the corresponding `play*` routine (start time, and where the
routine takes them, frequency and duration). -/
inductive Trigger where
  | kick (time : ℚ)
  | snare (time : ℚ)
  | hihat (time : ℚ) (duration : ℚ)
  | bass (time : ℚ) (freq : ℚ) (duration : ℚ)
  | synth (time : ℚ) (freq : ℚ) (duration : ℚ)
  | sliceSfx (time : ℚ)
  | bombSfx (time : ℚ)
deriving DecidableEq

/-- The engine-clock start time of a trigger (first argument of every
`play*` call). -/
def Trigger.startTime : Trigger → ℚ
  | kick t => t
  | snare t => t
  | hihat t _ => t
  | bass t _ _ => t
  | synth t _ _ => t
  | sliceSfx t => t
  | bombSfx t => t

/-- One parameter-automation command issued on the master gain
(`AudioParam` methods of the Web Audio API). -/
inductive GainEvent where
  | setValueAtTime (value : ℚ) (time : ℚ)
  | linearRampToValueAtTime (value : ℚ) (time : ℚ)
  | exponentialRampToValueAtTime (value : ℚ) (time : ℚ)
  | setTargetAtTime (target : ℚ) (startTime : ℚ) (timeConstant : ℚ)
deriving DecidableEq

/-- A two-channel sample buffer (`ctx.createBuffer(2, length, sampleRate)`). -/
structure StereoBuffer where
  left : List ℚ
  right : List ℚ
deriving DecidableEq

/-- The mutable fields of `AudioService`. -/
structure AudioState where
  hasCtx : Bool
  isMuted : Bool
  isPlaying : Bool
  tempo : ℚ
  nextNoteTime : ℚ
  current16thNote : ℕ
  intensity : Intensity
  timerActive : Bool
  gainTarget : ℚ
  gainEvents : List GainEvent
  reverbImpulse : Option StereoBuffer
deriving DecidableEq

/-- Scale: C Minor Pentatonic (C3, Eb3, F3, G3, Bb3, C4). -/
def scale : List ℚ := [13081/100, 15556/100, 17461/100, 196, 23308/100, 26163/100]

/-- `lookahead = 25.0` — milliseconds of timer sleep between ticks. -/
def lookahead : ℚ := 25

/-- `scheduleAheadTime = 0.1` — seconds of look-ahead scheduling window. -/
def scheduleAheadTime : ℚ := 1/10

/-- `createImpulseResponse(duration, decay, reverse)`: a stereo buffer of
`sampleRate * duration` samples where sample `i` of each channel is an
independent uniform draw mapped to `(-1,1)` times `(1 - n/length)^decay`,
`n = reverse ? length - i : i`.  `rl`/`rr` are the per-sample `Math.random()`
draws of the left/right channel. -/
def createImpulseResponse (sampleRate : ℕ) (rl rr : ℕ → ℚ)
    (duration : ℚ) (decay : ℕ) (reverse : Bool) : StereoBuffer :=
  let length : ℚ := (sampleRate : ℚ) * duration
  let len : ℕ := ⌊length⌋₊
  { left := (List.range len).map (fun (i : ℕ) =>
      let n : ℚ := if reverse then length - (i : ℚ) else (i : ℚ)
      (rl i * 2 - 1) * (1 - n / length) ^ decay)
    right := (List.range len).map (fun (i : ℕ) =>
      let n : ℚ := if reverse then length - (i : ℚ) else (i : ℚ)
      (rr i * 2 - 1) * (1 - n / length) ^ decay) }

/-- `init()`: lazily creates the context, master gain (value `0.4`) and the
convolver with its impulse response.  `avail` says whether the environment can
create an `AudioContext`; when it cannot, the service stays uninitialized
(degraded no-op mode).  `sampleRate`, `rl`, `rr` feed the impulse response. -/
def init (st : AudioState) (avail : Bool) (sampleRate : ℕ) (rl rr : ℕ → ℚ) :
    AudioState :=
  if st.hasCtx then st
  else if avail then
    { st with
      hasCtx := true
      gainTarget := 2/5
      reverbImpulse := some (createImpulseResponse sampleRate rl rr 2 2 false) }
  else st

/-- `playSliceSfx()`: no-op when there is no context or the service is muted;
otherwise hands one sawtooth slice voice (start `t = ctx.currentTime`) to the
engine and leaves every service field unchanged. -/
def playSliceSfx (st : AudioState) (now : ℚ) : AudioState × List Trigger :=
  if !st.hasCtx || st.isMuted then (st, [])
  else (st, [Trigger.sliceSfx now])

/-- `playBombSfx()`: no-op when there is no context or the service is muted;
otherwise hands one filtered noise-burst voice to the engine and leaves every
service field unchanged. -/
def playBombSfx (st : AudioState) (now : ℚ) : AudioState × List Trigger :=
  if !st.hasCtx || st.isMuted then (st, [])
  else (st, [Trigger.bombSfx now])

/-- `stopBGM()`: clears the playing flag and cancels the pending timer
(`window.clearTimeout(this.timerID)`). -/
def stopBGM (st : AudioState) : AudioState :=
  { st with isPlaying := false, timerActive := false }

/-- `toggleMute()`: flips the muted flag and, when the master gain exists,
issues `gain.setTargetAtTime(isMuted ? 0 : 0.4, ctx.currentTime, 0.1)` — a
smoothed time-constant ramp towards the new target. -/
def toggleMute (st : AudioState) (now : ℚ) : AudioState :=
  let st1 := { st with isMuted := !st.isMuted }
  if st1.hasCtx then
    let target : ℚ := if st1.isMuted then 0 else 2/5
    { st1 with
      gainTarget := target
      gainEvents := st1.gainEvents ++ [GainEvent.setTargetAtTime target now (1/10)] }
  else st1

/-- `nextNote()`: advances `nextNoteTime` by a quarter of a beat
(`0.25 * 60 / tempo`, sixteenth notes) and increments `current16thNote`,
wrapping `16` back to `0`. -/
def nextNote (st : AudioState) : AudioState :=
  let secondsPerBeat : ℚ := 60 / st.tempo
  let st1 := { st with
    nextNoteTime := st.nextNoteTime + 1/4 * secondsPerBeat
    current16thNote := st.current16thNote + 1 }
  if st1.current16thNote = 16 then { st1 with current16thNote := 0 } else st1

/-- `scheduleNote(beatNumber, time)`: the per-step pattern rule.  Returns the
voices handed to the engine for this step, in the source's call order
(kick, snare, hi-hat, bass, melody), all at engine time `time`.  `r` is the
`Math.random()` draw consumed by the melody branch. -/
def scheduleNote (st : AudioState) (beatNumber : ℕ) (time : ℚ) (r : ℚ) :
    List Trigger :=
  if st.isMuted then []
  else
    -- KICK: 4 on the floor for high intensity, sparse for low
    (if st.intensity = Intensity.high then
      (if beatNumber % 4 = 0 then [Trigger.kick time] else [])
    else
      (if beatNumber = 0 ∨ beatNumber = 10 then [Trigger.kick time] else []))
    ++
    -- SNARE / CLAP
    (if beatNumber % 8 = 4 then [Trigger.snare time] else [])
    ++
    -- HI-HAT: closed on even steps, extra ticks on odd steps when high
    (if beatNumber % 2 = 0 then [Trigger.hihat time (1/20)]
     else if st.intensity = Intensity.high then [Trigger.hihat time (3/100)]
     else [])
    ++
    -- BASS: driving 8th notes (high) or a drone (low), one octave down
    (if st.intensity = Intensity.high then
      (if beatNumber % 2 = 0 then
        [Trigger.bass time
          ((if beatNumber < 8 then scale.getD 0 0 else scale.getD 1 0) / 2) (1/5)]
      else [])
    else
      (if beatNumber = 0 then [Trigger.bass time (scale.getD 0 0 / 2) 2] else []))
    ++
    -- MELODY / ARP
    (if st.intensity = Intensity.high then
      (if beatNumber ∈ [0, 3, 6, 9, 12, 14] then
        [Trigger.synth time (scale.getD (Nat.floor (r * 4)) 0) (1/10)]
      else [])
    else
      (if beatNumber = 0 ∨ beatNumber = 6 ∨ beatNumber = 12 then
        [Trigger.synth time (scale.getD (Nat.floor (r * (scale.length : ℚ))) 0 * 2) (1/2)]
      else []))

/-- The `while (nextNoteTime < currentTime + scheduleAheadTime)` loop of
`scheduler()`: schedules the current step's voices at `nextNoteTime`, advances
via `nextNote()`, and repeats.  Returns the state after the loop and the
concatenation of all voices handed to the engine, in hand-off order.  `rs` is
the stream of `Math.random()` draws (one per loop iteration).  Termination
needs a positive tempo (`ht`); the source only ever assigns 100, 120 or 135. -/
def schedulerLoop (now : ℚ) (rs : ℕ → ℚ) (st : AudioState)
    (ht : 0 < st.tempo) : AudioState × List Trigger :=
  if hc : st.nextNoteTime < now + scheduleAheadTime then
    let trigs := scheduleNote st st.current16thNote st.nextNoteTime (rs 0)
    let res := schedulerLoop now (fun n => rs (n + 1)) (nextNote st)
      (by simp only [nextNote]; split <;> exact ht)
    (res.1, trigs ++ res.2)
  else (st, [])
termination_by (⌈(now + scheduleAheadTime - st.nextNoteTime) * st.tempo / 15⌉).toNat
decreasing_by
  have hT : (nextNote st).tempo = st.tempo := by
    simp only [nextNote]; split <;> rfl
  have hN : (nextNote st).nextNoteTime = st.nextNoteTime + 1/4 * (60 / st.tempo) := by
    simp only [nextNote]; split <;> rfl
  rw [hT, hN]
  have _hT0 : st.tempo ≠ 0 := ne_of_gt ht
  have key : (now + scheduleAheadTime - (st.nextNoteTime + 1/4 * (60 / st.tempo)))
      * st.tempo / 15
      = (now + scheduleAheadTime - st.nextNoteTime) * st.tempo / 15 - 1 := by
    field_simp
    ring
  have hpos : 0 < (now + scheduleAheadTime - st.nextNoteTime) * st.tempo / 15 := by
    apply div_pos (mul_pos (by linarith) ht) (by norm_num)
  rw [key, Int.ceil_sub_one]
  have hone : 0 < ⌈(now + scheduleAheadTime - st.nextNoteTime) * st.tempo / 15⌉ :=
    Int.ceil_pos.mpr hpos
  omega

/-- One `scheduler()` tick: early-returns when not playing or no context,
otherwise runs the look-ahead loop and re-arms the timer
(`setTimeout(() => scheduler(), lookahead)`). -/
def scheduler (now : ℚ) (rs : ℕ → ℚ) (st : AudioState)
    (ht : 0 < st.tempo) : AudioState × List Trigger :=
  if !st.isPlaying || !st.hasCtx then (st, [])
  else
    let res := schedulerLoop now rs st ht
    ({ res.1 with timerActive := true }, res.2)

/-- `startBGM(intensity)`: stop the previous session when playing, `init()`,
bail out when there is still no context, reset the step counter, pick the
tempo preset from the intensity, set `nextNoteTime = currentTime + 0.1` and
run the first `scheduler()` tick. -/
def startBGM (st : AudioState) (intensity : Intensity) (now : ℚ) (avail : Bool)
    (sampleRate : ℕ) (rl rr rs : ℕ → ℚ) : AudioState × List Trigger :=
  let st1 := if st.isPlaying then stopBGM st else st
  let st2 := init st1 avail sampleRate rl rr
  if st2.hasCtx = false then (st2, [])
  else
    let st3 := { st2 with
      intensity := intensity
      isPlaying := true
      current16thNote := 0
      tempo := if intensity = Intensity.high then 135 else 100
      nextNoteTime := now + 1/10 }
    scheduler now rs st3
      (by show (0 : ℚ) < if intensity = Intensity.high then 135 else 100
          split <;> norm_num)

/-- The number of iterations the `scheduler()` while-loop performs from a
given state at engine time `now` (how many sixteenth-note slots fit in the
remaining look-ahead window). -/
def schedulerSteps (now : ℚ) (st : AudioState) : ℕ :=
  (⌈(now + scheduleAheadTime - st.nextNoteTime) * st.tempo / 15⌉).toNat

/-- The step-counter map of `nextNote` in isolation: increment, wrapping 16
to 0. -/
def stepAdvance (s : ℕ) : ℕ :=
  if s + 1 = 16 then 0 else s + 1

/-- A concrete playing high-intensity state (used by witnesses). -/
def stHigh : AudioState :=
  { hasCtx := true, isMuted := false, isPlaying := true, tempo := 135
    nextNoteTime := 0, current16thNote := 0, intensity := Intensity.high
    timerActive := true, gainTarget := 2/5, gainEvents := [], reverbImpulse := none }

/-- A concrete playing low-intensity state (used by witnesses). -/
def stLow : AudioState :=
  { hasCtx := true, isMuted := false, isPlaying := true, tempo := 100
    nextNoteTime := 0, current16thNote := 0, intensity := Intensity.low
    timerActive := true, gainTarget := 2/5, gainEvents := [], reverbImpulse := none }

/-- A concrete muted playing state (used by witnesses). -/
def stMuted : AudioState :=
  { hasCtx := true, isMuted := true, isPlaying := true, tempo := 120
    nextNoteTime := 0, current16thNote := 0, intensity := Intensity.high
    timerActive := true, gainTarget := 0, gainEvents := [], reverbImpulse := none }

/-! Helper lemmas about `nextNote`. -/

theorem nextNote_tempo (st : AudioState) : (nextNote st).tempo = st.tempo := by
  simp only [nextNote]
  split <;> rfl

theorem nextNote_nextNoteTime (st : AudioState) :
    (nextNote st).nextNoteTime = st.nextNoteTime + 1/4 * (60 / st.tempo) := by
  simp only [nextNote]
  split <;> rfl

theorem nextNote_current16thNote (st : AudioState) :
    (nextNote st).current16thNote = stepAdvance st.current16thNote := by
  simp only [nextNote, stepAdvance]
  split <;> simp_all

theorem nextNote_isMuted (st : AudioState) : (nextNote st).isMuted = st.isMuted := by
  simp only [nextNote]
  split <;> rfl

theorem nextNote_iterate (st : AudioState) (n : ℕ) :
    (nextNote^[n] st).nextNoteTime = st.nextNoteTime + n * (1/4 * (60 / st.tempo)) ∧
    (nextNote^[n] st).tempo = st.tempo := by
  induction n with
  | zero => simp
  | succ n ih =>
    rw [Function.iterate_succ_apply']
    refine ⟨?_, ?_⟩
    · rw [nextNote_nextNoteTime, ih.1, ih.2]
      push_cast
      ring
    · rw [nextNote_tempo, ih.2]

theorem nextNote_iterate_step (st : AudioState) (n : ℕ) :
    (nextNote^[n] st).current16thNote = stepAdvance^[n] st.current16thNote := by
  induction n with
  | zero => rfl
  | succ n ih =>
    rw [Function.iterate_succ_apply', Function.iterate_succ_apply',
      nextNote_current16thNote, ih]

/-- C2: one application of `nextNote` adds the exact rational
`(60 / tempo) * 0.25` to `nextNoteTime` (in particular `0.125` seconds at
`tempo = 120`, and no wall-clock value enters the computation); sixteen
applications add exactly `2.0` seconds at `tempo = 120` and return
`current16thNote` to its starting value. -/
theorem nextNote_exact_increments (st : AudioState) (h16 : st.current16thNote < 16) :
    (nextNote st).nextNoteTime = st.nextNoteTime + 60 / st.tempo * (1/4) ∧
    (st.tempo = 120 → (nextNote st).nextNoteTime = st.nextNoteTime + 1/8) ∧
    (st.tempo = 120 → (nextNote^[16] st).nextNoteTime = st.nextNoteTime + 2) ∧
    (nextNote^[16] st).current16thNote = st.current16thNote := by
  refine ⟨?_, ?_, ?_, ?_⟩
  · rw [nextNote_nextNoteTime]
    ring
  · intro h
    rw [nextNote_nextNoteTime, h]
    norm_num
  · intro h
    rw [(nextNote_iterate st 16).1, h]
    norm_num
  · rw [nextNote_iterate_step]
    have hcycle : ∀ s, s < 16 → stepAdvance^[16] s = s := by decide
    exact hcycle _ h16

/-- Witness for `nextNote_exact_increments` at a concrete state
(`stMuted` has `tempo = 120`, `current16thNote = 0`). -/
theorem nextNote_exact_increments_witness :
    stMuted.current16thNote < 16 ∧
    ((nextNote stMuted).nextNoteTime = stMuted.nextNoteTime + 60 / stMuted.tempo * (1/4) ∧
      (stMuted.tempo = 120 →
        (nextNote stMuted).nextNoteTime = stMuted.nextNoteTime + 1/8) ∧
      (stMuted.tempo = 120 →
        (nextNote^[16] stMuted).nextNoteTime = stMuted.nextNoteTime + 2) ∧
      (nextNote^[16] stMuted).current16thNote = stMuted.current16thNote) :=
  ⟨by decide, nextNote_exact_increments stMuted (by decide)⟩

/-- C10: `toggleMute` leaves the transport fields (`isPlaying`, `tempo`,
`current16thNote`, `nextNoteTime`, `intensity`), the reverb impulse, the
context flag and the timer flag unchanged. -/
theorem toggleMute_frame (st : AudioState) (now : ℚ) :
    (toggleMute st now).isPlaying = st.isPlaying ∧
    (toggleMute st now).tempo = st.tempo ∧
    (toggleMute st now).current16thNote = st.current16thNote ∧
    (toggleMute st now).nextNoteTime = st.nextNoteTime ∧
    (toggleMute st now).intensity = st.intensity ∧
    (toggleMute st now).reverbImpulse = st.reverbImpulse ∧
    (toggleMute st now).hasCtx = st.hasCtx ∧
    (toggleMute st now).timerActive = st.timerActive := by
  simp only [toggleMute]
  split <;> simp

/-- C7: with an initialized mix graph and the gain target consistent with the
mute flag, a double `toggleMute` restores the mute flag and the gain target
(in particular the configured `0.4` when the service was unmuted), and each
call issues exactly one smoothed `setTargetAtTime` ramp — never an
instantaneous value assignment. -/
theorem toggleMute_double_roundtrip (st : AudioState) (now now' : ℚ)
    (hctx : st.hasCtx = true)
    (hg : st.gainTarget = if st.isMuted then 0 else 2/5) :
    (toggleMute (toggleMute st now) now').isMuted = st.isMuted ∧
    (toggleMute (toggleMute st now) now').gainTarget = st.gainTarget ∧
    (st.isMuted = false → (toggleMute (toggleMute st now) now').gainTarget = 2/5) ∧
    (∃ t1 t2, (toggleMute (toggleMute st now) now').gainEvents =
      st.gainEvents ++ [GainEvent.setTargetAtTime t1 now (1/10),
                        GainEvent.setTargetAtTime t2 now' (1/10)]) := by
  cases hmu : st.isMuted
  · refine ⟨?_, ?_, ?_, 0, 2/5, ?_⟩ <;>
      simp [toggleMute, hctx, hmu, hg]
  · refine ⟨?_, ?_, ?_, 2/5, 0, ?_⟩
    · simp [toggleMute, hctx, hmu]
    · simp [toggleMute, hctx, hmu, hg]
    · intro h
      exact Bool.noConfusion h
    · simp [toggleMute, hctx, hmu]

/-- Witness for `toggleMute_double_roundtrip` at a concrete state. -/
theorem toggleMute_double_roundtrip_witness :
    (stHigh.hasCtx = true ∧ stHigh.gainTarget = if stHigh.isMuted then 0 else 2/5) ∧
    ((toggleMute (toggleMute stHigh 3) 7).isMuted = stHigh.isMuted ∧
      (toggleMute (toggleMute stHigh 3) 7).gainTarget = stHigh.gainTarget ∧
      (stHigh.isMuted = false → (toggleMute (toggleMute stHigh 3) 7).gainTarget = 2/5) ∧
      (∃ t1 t2, (toggleMute (toggleMute stHigh 3) 7).gainEvents =
        stHigh.gainEvents ++ [GainEvent.setTargetAtTime t1 3 (1/10),
                              GainEvent.setTargetAtTime t2 7 (1/10)])) :=
  ⟨⟨rfl, rfl⟩, toggleMute_double_roundtrip stHigh 3 7 rfl rfl⟩

/-- C6: while muted, or without an audio backend, both one-shot SFX calls
hand zero voices to the engine and leave the whole service state unchanged. -/
theorem sfx_muted_or_no_ctx_noop (st : AudioState) (now : ℚ)
    (h : st.isMuted = true ∨ st.hasCtx = false) :
    playSliceSfx st now = (st, []) ∧ playBombSfx st now = (st, []) := by
  rcases h with h | h <;> simp [playSliceSfx, playBombSfx, h]

/-- Witness for `sfx_muted_or_no_ctx_noop` at a concrete muted state. -/
theorem sfx_muted_or_no_ctx_noop_witness :
    (stMuted.isMuted = true ∨ stMuted.hasCtx = false) ∧
    (playSliceSfx stMuted 5 = (stMuted, []) ∧ playBombSfx stMuted 5 = (stMuted, [])) :=
  ⟨Or.inl (by decide), sfx_muted_or_no_ctx_noop stMuted 5 (Or.inl (by decide))⟩

/-- C4: with mute off, the pattern rule fires a kick at a step iff
`step % 4 = 0` under high intensity (steps 0, 4, 8, 12 of the 16-step cycle)
and iff the step is 0 or 10 under low intensity. -/
theorem kick_pattern (st : AudioState) (hm : st.isMuted = false)
    (step : ℕ) (hstep : step < 16) (t r : ℚ) :
    (Trigger.kick t ∈ scheduleNote { st with intensity := Intensity.high } step t r
      ↔ step % 4 = 0) ∧
    (Trigger.kick t ∈ scheduleNote { st with intensity := Intensity.low } step t r
      ↔ (step = 0 ∨ step = 10)) := by
  interval_cases step <;> simp [scheduleNote, hm]

/-- Witness for `kick_pattern` at a concrete state and step. -/
theorem kick_pattern_witness :
    (stHigh.isMuted = false ∧ 4 < 16) ∧
    ((Trigger.kick 2 ∈ scheduleNote { stHigh with intensity := Intensity.high } 4 2 0
        ↔ 4 % 4 = 0) ∧
      (Trigger.kick 2 ∈ scheduleNote { stHigh with intensity := Intensity.low } 4 2 0
        ↔ (4 = 0 ∨ 4 = 10))) :=
  ⟨⟨by decide, by decide⟩, kick_pattern stHigh (by decide) 4 (by decide) 2 0⟩

/-- C8: the impulse-response generator is a pure function of its inputs:
given `sampleRate * duration = L`, both channels have `L` samples, sample `i`
equals the channel's own uniform draw mapped to `(-1,1)` times
`(1 - n/L)^decay` with `n = L - i` when `reverse` and `n = i` otherwise, and
each channel depends only on its own draw stream (independence). -/
theorem createImpulseResponse_spec (sampleRate : ℕ) (rl rr : ℕ → ℚ)
    (duration : ℚ) (decay : ℕ) (reverse : Bool) (L : ℕ)
    (hL : (sampleRate : ℚ) * duration = (L : ℚ)) :
    (createImpulseResponse sampleRate rl rr duration decay reverse).left.length = L ∧
    (createImpulseResponse sampleRate rl rr duration decay reverse).right.length = L ∧
    (∀ i, i < L →
      (createImpulseResponse sampleRate rl rr duration decay reverse).left.getD i 0
        = (rl i * 2 - 1) *
          (1 - (if reverse then (L : ℚ) - (i : ℚ) else (i : ℚ)) / (L : ℚ)) ^ decay) ∧
    (∀ i, i < L →
      (createImpulseResponse sampleRate rl rr duration decay reverse).right.getD i 0
        = (rr i * 2 - 1) *
          (1 - (if reverse then (L : ℚ) - (i : ℚ) else (i : ℚ)) / (L : ℚ)) ^ decay) ∧
    (∀ rr2, (createImpulseResponse sampleRate rl rr2 duration decay reverse).left
      = (createImpulseResponse sampleRate rl rr duration decay reverse).left) ∧
    (∀ rl2, (createImpulseResponse sampleRate rl2 rr duration decay reverse).right
      = (createImpulseResponse sampleRate rl rr duration decay reverse).right) := by
  refine ⟨?_, ?_, ?_, ?_, fun _ => rfl, fun _ => rfl⟩
  · simp [createImpulseResponse, hL]
  · simp [createImpulseResponse, hL]
  · intro i hi
    simp only [createImpulseResponse, hL, Nat.floor_natCast]
    rw [List.getD_eq_getElem _ _ (by simpa using hi)]
    simp
  · intro i hi
    simp only [createImpulseResponse, hL, Nat.floor_natCast]
    rw [List.getD_eq_getElem _ _ (by simpa using hi)]
    simp

/-- Witness for `createImpulseResponse_spec` at concrete inputs
(`sampleRate = 2`, `duration = 2`, so `L = 4` samples). -/
theorem createImpulseResponse_spec_witness :
    ((2 : ℕ) : ℚ) * 2 = ((4 : ℕ) : ℚ) ∧
    ((createImpulseResponse 2 (fun _ => 1/2) (fun _ => 1/3) 2 2 false).left.length = 4 ∧
      (createImpulseResponse 2 (fun _ => 1/2) (fun _ => 1/3) 2 2 false).right.length = 4 ∧
      (∀ i, i < 4 →
        (createImpulseResponse 2 (fun _ => 1/2) (fun _ => 1/3) 2 2 false).left.getD i 0
          = ((1 : ℚ)/2 * 2 - 1) *
            (1 - (if false then ((4 : ℕ) : ℚ) - (i : ℚ) else (i : ℚ)) / ((4 : ℕ) : ℚ)) ^ 2) ∧
      (∀ i, i < 4 →
        (createImpulseResponse 2 (fun _ => 1/2) (fun _ => 1/3) 2 2 false).right.getD i 0
          = ((1 : ℚ)/3 * 2 - 1) *
            (1 - (if false then ((4 : ℕ) : ℚ) - (i : ℚ) else (i : ℚ)) / ((4 : ℕ) : ℚ)) ^ 2) ∧
      (∀ rr2, (createImpulseResponse 2 (fun _ => 1/2) rr2 2 2 false).left
        = (createImpulseResponse 2 (fun _ => 1/2) (fun _ => 1/3) 2 2 false).left) ∧
      (∀ rl2, (createImpulseResponse 2 rl2 (fun _ => 1/3) 2 2 false).right
        = (createImpulseResponse 2 (fun _ => 1/2) (fun _ => 1/3) 2 2 false).right)) :=
  ⟨by norm_num,
    createImpulseResponse_spec 2 (fun _ => 1/2) (fun _ => 1/3) 2 2 false 4 (by norm_num)⟩

/-- C5 counterexample: the claim says every reachable high-intensity arp note
lies in the lower half (the first 3 notes) of the 6-note scale; but with mute
off, intensity high, step 0 and the admissible draw `r = 3/4`, the code emits
a synth trigger at `scale[3]`, which is not among the first 3 notes. -/
theorem melody_lower_half_cex :
    Trigger.synth 0 (scale.getD 3 0) (1/10) ∈ scheduleNote stHigh 0 0 (3/4) ∧
    (0 : ℚ) ≤ 3/4 ∧ (3/4 : ℚ) < 1 ∧
    scale.getD 3 0 ∉ scale.take (scale.length / 2) ∧
    scale.length = 6 := by
  have h34 : (3/4 : ℚ) * 4 = ((3 : ℕ) : ℚ) := by norm_num
  have h3 : Nat.floor ((3/4 : ℚ) * 4) = 3 := by rw [h34, Nat.floor_natCast]
  refine ⟨?_, by norm_num, by norm_num, ?_, rfl⟩
  · simp [scheduleNote, stHigh, h3]
  · norm_num [scale]

/-- C5 (amended): with mute off and an admissible draw `0 ≤ r < 1`, the
high-intensity arp at steps {0,3,6,9,12,14} plays `scale[⌊r*4⌋]` — a note
from the lower four notes (indices 0–3) of the 6-note scale, not the lower
half — at duration 0.1s, and no synth voice with any other parameters is
emitted; the low-intensity melody at steps {0,6,12} plays a full-scale note
`scale[⌊r*6⌋]` doubled in frequency at duration 0.5s; every index of the
respective range is reachable by some admissible draw. -/
theorem melody_note_selection (st : AudioState) (hm : st.isMuted = false)
    (step : ℕ) (hstep : step < 16) (t r : ℚ) (hr0 : 0 ≤ r) (hr1 : r < 1) :
    (st.intensity = Intensity.high →
      ((step ∈ [0, 3, 6, 9, 12, 14] →
          Trigger.synth t (scale.getD (Nat.floor (r * 4)) 0) (1/10)
            ∈ scheduleNote st step t r ∧ Nat.floor (r * 4) < 4) ∧
        (∀ f d, Trigger.synth t f d ∈ scheduleNote st step t r →
          step ∈ [0, 3, 6, 9, 12, 14] ∧ d = 1/10 ∧
          ∃ k, k < 4 ∧ f = scale.getD k 0))) ∧
    (st.intensity = Intensity.low →
      (((step = 0 ∨ step = 6 ∨ step = 12) →
          Trigger.synth t (scale.getD (Nat.floor (r * (scale.length : ℚ))) 0 * 2) (1/2)
            ∈ scheduleNote st step t r ∧
          Nat.floor (r * (scale.length : ℚ)) < 6) ∧
        (∀ f d, Trigger.synth t f d ∈ scheduleNote st step t r →
          (step = 0 ∨ step = 6 ∨ step = 12) ∧ d = 1/2 ∧
          ∃ k, k < 6 ∧ f = scale.getD k 0 * 2))) ∧
    (∀ k, k < 4 → ∃ s : ℚ, 0 ≤ s ∧ s < 1 ∧ Nat.floor (s * 4) = k) ∧
    (∀ k, k < 6 → ∃ s : ℚ, 0 ≤ s ∧ s < 1 ∧ Nat.floor (s * (scale.length : ℚ)) = k) := by
  have hlen : (scale.length : ℚ) = 6 := by norm_num [scale]
  have hfloor4 : Nat.floor (r * 4) < 4 := by
    rw [Nat.floor_lt (mul_nonneg hr0 (by norm_num))]
    push_cast
    linarith
  have hfloor6 : Nat.floor (r * (scale.length : ℚ)) < 6 := by
    rw [hlen, Nat.floor_lt (mul_nonneg hr0 (by norm_num))]
    push_cast
    linarith
  refine ⟨?_, ?_, ?_, ?_⟩
  · intro hhigh
    constructor
    · intro hmem
      refine ⟨?_, hfloor4⟩
      interval_cases step <;> simp_all [scheduleNote]
    · intro f d hmem
      interval_cases step <;> simp [scheduleNote, hm, hhigh] at hmem <;>
        exact ⟨by simp, by rw [one_div]; exact hmem.2, Nat.floor (r * 4), hfloor4,
          by rw [List.getD_eq_getElem?_getD]; exact hmem.1⟩
  · intro hlow
    constructor
    · intro hmem
      refine ⟨?_, hfloor6⟩
      rcases hmem with h | h | h <;> subst h <;> simp_all [scheduleNote]
    · intro f d hmem
      interval_cases step <;> simp [scheduleNote, hm, hlow] at hmem <;>
        exact ⟨by simp, by rw [one_div]; exact hmem.2,
          Nat.floor (r * (scale.length : ℚ)), hfloor6,
          by rw [List.getD_eq_getElem?_getD]; exact hmem.1⟩
  · intro k hk
    refine ⟨(k : ℚ) / 4, by positivity, ?_, ?_⟩
    · rw [div_lt_one (by norm_num)]
      exact_mod_cast hk
    · have hk4 : ((k : ℚ) / 4) * 4 = (k : ℚ) := by field_simp
      rw [hk4, Nat.floor_natCast]
  · intro k hk
    refine ⟨(k : ℚ) / 6, by positivity, ?_, ?_⟩
    · rw [div_lt_one (by norm_num)]
      exact_mod_cast hk
    · have hk6 : ((k : ℚ) / 6) * (scale.length : ℚ) = (k : ℚ) := by
        rw [hlen]
        field_simp
      rw [hk6, Nat.floor_natCast]

/-- Witness for `melody_note_selection` at a concrete state, step and draw. -/
theorem melody_note_selection_witness :
    (stHigh.isMuted = false ∧ 0 < 16 ∧ (0 : ℚ) ≤ 1/2 ∧ (1/2 : ℚ) < 1) ∧
    ((stHigh.intensity = Intensity.high →
      ((0 ∈ [0, 3, 6, 9, 12, 14] →
          Trigger.synth 5 (scale.getD (Nat.floor ((1/2 : ℚ) * 4)) 0) (1/10)
            ∈ scheduleNote stHigh 0 5 (1/2) ∧ Nat.floor ((1/2 : ℚ) * 4) < 4) ∧
        (∀ f d, Trigger.synth 5 f d ∈ scheduleNote stHigh 0 5 (1/2) →
          0 ∈ [0, 3, 6, 9, 12, 14] ∧ d = 1/10 ∧
          ∃ k, k < 4 ∧ f = scale.getD k 0))) ∧
    (stHigh.intensity = Intensity.low →
      (((0 = 0 ∨ 0 = 6 ∨ 0 = 12) →
          Trigger.synth 5 (scale.getD (Nat.floor ((1/2 : ℚ) * (scale.length : ℚ))) 0 * 2) (1/2)
            ∈ scheduleNote stHigh 0 5 (1/2) ∧
          Nat.floor ((1/2 : ℚ) * (scale.length : ℚ)) < 6) ∧
        (∀ f d, Trigger.synth 5 f d ∈ scheduleNote stHigh 0 5 (1/2) →
          (0 = 0 ∨ 0 = 6 ∨ 0 = 12) ∧ d = 1/2 ∧
          ∃ k, k < 6 ∧ f = scale.getD k 0 * 2))) ∧
    (∀ k, k < 4 → ∃ s : ℚ, 0 ≤ s ∧ s < 1 ∧ Nat.floor (s * 4) = k) ∧
    (∀ k, k < 6 → ∃ s : ℚ, 0 ≤ s ∧ s < 1 ∧ Nat.floor (s * (scale.length : ℚ)) = k)) :=
  ⟨⟨rfl, by norm_num, by norm_num, by norm_num⟩,
    melody_note_selection stHigh rfl 0 (by norm_num) 5 (1/2) (by norm_num) (by norm_num)⟩

/-! Helper lemmas about `scheduleNote` and the scheduler loop. -/

theorem pairwise_of_mem_rel {α : Type} {R : α → α → Prop} :
    ∀ l : List α, (∀ a ∈ l, ∀ b ∈ l, R a b) → l.Pairwise R := by
  intro l
  induction l with
  | nil => exact fun _ => List.Pairwise.nil
  | cons a l ih =>
    intro h
    refine List.Pairwise.cons (fun b hb => h a (by simp) b (by simp [hb])) (ih ?_)
    intro x hx y hy
    exact h x (by simp [hx]) y (by simp [hy])

theorem mem_ite_cases {c : Prop} [Decidable c] {tr : Trigger} {l1 l2 : List Trigger}
    (h : tr ∈ if c then l1 else l2) : tr ∈ l1 ∨ tr ∈ l2 := by
  split at h
  · exact Or.inl h
  · exact Or.inr h

theorem scheduleNote_startTime (st : AudioState) (b : ℕ) (t r : ℚ) :
    ∀ tr ∈ scheduleNote st b t r, tr.startTime = t := by
  intro tr htr
  unfold scheduleNote at htr
  split at htr
  · simp at htr
  · simp only [List.mem_append] at htr
    rcases htr with (((h | h) | h) | h) | h
    · rcases mem_ite_cases h with h | h <;> rcases mem_ite_cases h with h | h <;>
        simp_all [Trigger.startTime]
    · rcases mem_ite_cases h with h | h <;> simp_all [Trigger.startTime]
    · rcases mem_ite_cases h with h | h
      · simp_all [Trigger.startTime]
      · rcases mem_ite_cases h with h | h <;> simp_all [Trigger.startTime]
    · rcases mem_ite_cases h with h | h <;> rcases mem_ite_cases h with h | h <;>
        simp_all [Trigger.startTime]
    · rcases mem_ite_cases h with h | h <;> rcases mem_ite_cases h with h | h <;>
        simp_all [Trigger.startTime]

theorem scheduleNote_muted (st : AudioState) (hm : st.isMuted = true) (b : ℕ) (t r : ℚ) :
    scheduleNote st b t r = [] := by
  simp [scheduleNote, hm]

theorem schedulerLoop_bounds (now : ℚ) (rs : ℕ → ℚ) (st : AudioState) (ht : 0 < st.tempo) :
    ∀ tr ∈ (schedulerLoop now rs st ht).2,
      st.nextNoteTime ≤ tr.startTime ∧ tr.startTime < now + scheduleAheadTime := by
  induction rs, st, ht using schedulerLoop.induct now with
  | case1 rs st ht hc ih =>
    intro tr htr
    rw [schedulerLoop, dif_pos hc] at htr
    dsimp only at htr
    simp only [List.mem_append] at htr
    rcases htr with h | h
    · rw [scheduleNote_startTime st st.current16thNote st.nextNoteTime (rs 0) tr h]
      exact ⟨le_refl _, hc⟩
    · have hb := ih tr h
      have hstep : st.nextNoteTime ≤ (nextNote st).nextNoteTime := by
        rw [nextNote_nextNoteTime]
        have h60 : 0 < 60 / st.tempo := div_pos (by norm_num) ht
        linarith
      exact ⟨le_trans hstep hb.1, hb.2⟩
  | case2 rs st ht hc =>
    intro tr htr
    rw [schedulerLoop, dif_neg hc] at htr
    simp at htr

theorem schedulerLoop_sorted (now : ℚ) (rs : ℕ → ℚ) (st : AudioState) (ht : 0 < st.tempo) :
    List.Pairwise (fun a b => a.startTime ≤ b.startTime) (schedulerLoop now rs st ht).2 := by
  induction rs, st, ht using schedulerLoop.induct now with
  | case1 rs st ht hc ih =>
    rw [schedulerLoop, dif_pos hc]
    dsimp only
    rw [List.pairwise_append]
    refine ⟨?_, ih, ?_⟩
    · apply pairwise_of_mem_rel
      intro a ha b hb
      rw [scheduleNote_startTime st _ _ _ a ha, scheduleNote_startTime st _ _ _ b hb]
    · intro a ha b hb
      rw [scheduleNote_startTime st _ _ _ a ha]
      have hb2 := (schedulerLoop_bounds now (fun n => rs (n + 1)) (nextNote st)
        ((nextNote_tempo st).symm ▸ ht) b hb).1
      have hstep : st.nextNoteTime ≤ (nextNote st).nextNoteTime := by
        rw [nextNote_nextNoteTime]
        have h60 : 0 < 60 / st.tempo := div_pos (by norm_num) ht
        linarith
      exact le_trans hstep hb2
  | case2 rs st ht hc =>
    rw [schedulerLoop, dif_neg hc]
    exact List.Pairwise.nil

theorem schedulerLoop_muted_triggers (now : ℚ) (rs : ℕ → ℚ) (st : AudioState)
    (ht : 0 < st.tempo) :
    st.isMuted = true → (schedulerLoop now rs st ht).2 = [] := by
  induction rs, st, ht using schedulerLoop.induct now with
  | case1 rs st ht hc ih =>
    intro hm
    rw [schedulerLoop, dif_pos hc]
    dsimp only
    rw [scheduleNote_muted st hm, ih (by rw [nextNote_isMuted]; exact hm)]
    rfl
  | case2 rs st ht hc =>
    intro hm
    rw [schedulerLoop, dif_neg hc]

theorem schedulerLoop_fst (now : ℚ) (rs : ℕ → ℚ) (st : AudioState) (ht : 0 < st.tempo) :
    (schedulerLoop now rs st ht).1 = nextNote^[schedulerSteps now st] st := by
  induction rs, st, ht using schedulerLoop.induct now with
  | case1 rs st ht hc ih =>
    rw [schedulerLoop, dif_pos hc]
    dsimp only
    rw [ih]
    have hdec : schedulerSteps now st = schedulerSteps now (nextNote st) + 1 := by
      unfold schedulerSteps
      rw [nextNote_tempo, nextNote_nextNoteTime]
      have _hT0 : st.tempo ≠ 0 := ne_of_gt ht
      have key : (now + scheduleAheadTime - (st.nextNoteTime + 1/4 * (60 / st.tempo)))
          * st.tempo / 15
          = (now + scheduleAheadTime - st.nextNoteTime) * st.tempo / 15 - 1 := by
        field_simp
        ring
      rw [key, Int.ceil_sub_one]
      have hpos : 0 < (now + scheduleAheadTime - st.nextNoteTime) * st.tempo / 15 :=
        div_pos (mul_pos (by linarith) ht) (by norm_num)
      have hone := Int.ceil_pos.mpr hpos
      omega
    rw [hdec, Function.iterate_succ_apply]
  | case2 rs st ht hc =>
    rw [schedulerLoop, dif_neg hc]
    have h1 : now + scheduleAheadTime - st.nextNoteTime ≤ 0 := by
      have := not_lt.mp hc
      linarith
    have h2 : (now + scheduleAheadTime - st.nextNoteTime) * st.tempo ≤ 0 :=
      mul_nonpos_of_nonpos_of_nonneg h1 (le_of_lt ht)
    have h3 : (now + scheduleAheadTime - st.nextNoteTime) * st.tempo / 15 ≤ 0 := by
      linarith
    have h4 : ⌈(now + scheduleAheadTime - st.nextNoteTime) * st.tempo / 15⌉ ≤ 0 :=
      Int.ceil_le.mpr (by exact_mod_cast h3)
    have hz : schedulerSteps now st = 0 := by
      unfold schedulerSteps
      omega
    rw [hz]
    rfl

theorem schedulerLoop_done (now : ℚ) (rs : ℕ → ℚ) (st : AudioState) (ht : 0 < st.tempo)
    (h : ¬ st.nextNoteTime < now + scheduleAheadTime) :
    schedulerLoop now rs st ht = (st, []) := by
  rw [schedulerLoop, dif_neg h]

theorem init_hasCtx (st : AudioState) (avail : Bool) (sampleRate : ℕ) (rl rr : ℕ → ℚ) :
    (init st avail sampleRate rl rr).hasCtx = (st.hasCtx || avail) := by
  simp only [init]
  split
  · simp_all
  · split <;> simp_all

/-- C1: within any one scheduler tick, the voices are handed over in
non-decreasing `startTime` order, every handed-over voice starts strictly
before `now + scheduleAheadTime` and no earlier than the tick's entry
`nextNoteTime`, and (tempo being positive) `nextNoteTime` strictly increases
with every scheduled sixteenth-note step. -/
theorem scheduler_tick_ordering (now : ℚ) (rs : ℕ → ℚ) (st : AudioState)
    (ht : 0 < st.tempo) :
    List.Pairwise (fun a b => a.startTime ≤ b.startTime) (schedulerLoop now rs st ht).2 ∧
    (∀ tr ∈ (schedulerLoop now rs st ht).2, tr.startTime < now + scheduleAheadTime) ∧
    (∀ tr ∈ (schedulerLoop now rs st ht).2, st.nextNoteTime ≤ tr.startTime) ∧
    st.nextNoteTime < (nextNote st).nextNoteTime := by
  refine ⟨schedulerLoop_sorted now rs st ht,
    fun tr htr => (schedulerLoop_bounds now rs st ht tr htr).2,
    fun tr htr => (schedulerLoop_bounds now rs st ht tr htr).1, ?_⟩
  rw [nextNote_nextNoteTime]
  have h60 : 0 < 60 / st.tempo := div_pos (by norm_num) ht
  linarith

/-- Witness for `scheduler_tick_ordering` at a concrete state and time. -/
theorem scheduler_tick_ordering_witness :
    (0 : ℚ) < stHigh.tempo ∧
    (List.Pairwise (fun a b => a.startTime ≤ b.startTime)
        (schedulerLoop 0 (fun _ => 0) stHigh (by norm_num [stHigh])).2 ∧
      (∀ tr ∈ (schedulerLoop 0 (fun _ => 0) stHigh (by norm_num [stHigh])).2,
        tr.startTime < 0 + scheduleAheadTime) ∧
      (∀ tr ∈ (schedulerLoop 0 (fun _ => 0) stHigh (by norm_num [stHigh])).2,
        stHigh.nextNoteTime ≤ tr.startTime) ∧
      stHigh.nextNoteTime < (nextNote stHigh).nextNoteTime) :=
  ⟨by norm_num [stHigh],
    scheduler_tick_ordering 0 (fun _ => 0) stHigh (by norm_num [stHigh])⟩

/-- C9: while muted, the per-step pattern rule emits no voice at any step or
intensity and a whole scheduler tick emits no voice either, yet the tick
advances the transport (`nextNoteTime`, `current16thNote`) exactly as the
corresponding unmuted run would, so unmuting resumes at the current grid
position. -/
theorem muted_tick_silent_but_advances (now : ℚ) (rs rs2 : ℕ → ℚ) (st : AudioState)
    (ht : 0 < st.tempo) (hm : st.isMuted = true) :
    (∀ st2 : AudioState, ∀ b : ℕ, ∀ t r : ℚ,
      st2.isMuted = true → scheduleNote st2 b t r = []) ∧
    (schedulerLoop now rs st ht).2 = [] ∧
    (schedulerLoop now rs st ht).1.nextNoteTime
      = (schedulerLoop now rs2 { st with isMuted := false } ht).1.nextNoteTime ∧
    (schedulerLoop now rs st ht).1.current16thNote
      = (schedulerLoop now rs2 { st with isMuted := false } ht).1.current16thNote := by
  refine ⟨fun st2 b t r hm2 => scheduleNote_muted st2 hm2 b t r,
    schedulerLoop_muted_triggers now rs st ht hm, ?_, ?_⟩
  · rw [schedulerLoop_fst now rs st ht,
      schedulerLoop_fst now rs2 { st with isMuted := false } ht]
    have hsteps : schedulerSteps now { st with isMuted := false } = schedulerSteps now st :=
      rfl
    rw [hsteps, (nextNote_iterate st (schedulerSteps now st)).1,
      (nextNote_iterate { st with isMuted := false } (schedulerSteps now st)).1]
  · rw [schedulerLoop_fst now rs st ht,
      schedulerLoop_fst now rs2 { st with isMuted := false } ht]
    have hsteps : schedulerSteps now { st with isMuted := false } = schedulerSteps now st :=
      rfl
    rw [hsteps, nextNote_iterate_step st (schedulerSteps now st),
      nextNote_iterate_step { st with isMuted := false } (schedulerSteps now st)]

/-- Witness for `muted_tick_silent_but_advances` at a concrete muted state. -/
theorem muted_tick_silent_but_advances_witness :
    ((0 : ℚ) < stMuted.tempo ∧ stMuted.isMuted = true) ∧
    ((∀ st2 : AudioState, ∀ b : ℕ, ∀ t r : ℚ,
        st2.isMuted = true → scheduleNote st2 b t r = []) ∧
      (schedulerLoop 0 (fun _ => 0) stMuted (by norm_num [stMuted])).2 = [] ∧
      (schedulerLoop 0 (fun _ => 0) stMuted (by norm_num [stMuted])).1.nextNoteTime
        = (schedulerLoop 0 (fun _ => 1/2) { stMuted with isMuted := false }
            (by norm_num [stMuted])).1.nextNoteTime ∧
      (schedulerLoop 0 (fun _ => 0) stMuted (by norm_num [stMuted])).1.current16thNote
        = (schedulerLoop 0 (fun _ => 1/2) { stMuted with isMuted := false }
            (by norm_num [stMuted])).1.current16thNote) :=
  ⟨⟨by norm_num [stMuted], rfl⟩,
    muted_tick_silent_but_advances 0 (fun _ => 0) (fun _ => 1/2) stMuted
      (by norm_num [stMuted]) rfl⟩

/-- C3: from any prior transport state, `stopBGM` clears the playing flag and
cancels the pending tick, and `startBGM i` (given a backend: a context already
exists or can be created) resets the step counter to 0, picks tempo 135 for
high / 100 for low intensity, sets `nextNoteTime = now + 0.1`, is playing with
exactly the fresh tick's timer armed, and its first tick (run at the same
`now`) hands no voice to the engine yet. -/
theorem startBGM_restart (st : AudioState) (i : Intensity) (now : ℚ) (avail : Bool)
    (sampleRate : ℕ) (rl rr rs : ℕ → ℚ)
    (hctx : st.hasCtx = true ∨ avail = true) :
    ((stopBGM st).isPlaying = false ∧ (stopBGM st).timerActive = false) ∧
    (startBGM st i now avail sampleRate rl rr rs).1.current16thNote = 0 ∧
    (startBGM st i now avail sampleRate rl rr rs).1.tempo
      = (if i = Intensity.high then 135 else 100) ∧
    (startBGM st i now avail sampleRate rl rr rs).1.nextNoteTime = now + 1/10 ∧
    (startBGM st i now avail sampleRate rl rr rs).1.isPlaying = true ∧
    (startBGM st i now avail sampleRate rl rr rs).1.timerActive = true ∧
    (startBGM st i now avail sampleRate rl rr rs).2 = [] := by
  have h2 : (init (if st.isPlaying then stopBGM st else st) avail sampleRate rl rr).hasCtx
      = true := by
    rw [init_hasCtx]
    rcases hctx with h | h
    · have hpre : (if st.isPlaying then stopBGM st else st).hasCtx = true := by
        split <;> simpa [stopBGM] using h
      rw [hpre]
      simp
    · rw [h]
      simp
  refine ⟨⟨rfl, rfl⟩, ?_⟩
  simp only [startBGM]
  rw [if_neg (by simp [h2])]
  simp only [scheduler]
  rw [if_neg (by simp [h2])]
  rw [schedulerLoop_done _ _ _ _ (by simp [scheduleAheadTime])]
  exact ⟨rfl, rfl, rfl, rfl, rfl, rfl⟩

/-- Witness for `startBGM_restart` at a concrete already-playing state. -/
theorem startBGM_restart_witness :
    (stLow.hasCtx = true ∨ true = true) ∧
    (((stopBGM stLow).isPlaying = false ∧ (stopBGM stLow).timerActive = false) ∧
      (startBGM stLow Intensity.high 9 true 4 (fun _ => 0) (fun _ => 0)
        (fun _ => 0)).1.current16thNote = 0 ∧
      (startBGM stLow Intensity.high 9 true 4 (fun _ => 0) (fun _ => 0)
        (fun _ => 0)).1.tempo = (if Intensity.high = Intensity.high then 135 else 100) ∧
      (startBGM stLow Intensity.high 9 true 4 (fun _ => 0) (fun _ => 0)
        (fun _ => 0)).1.nextNoteTime = 9 + 1/10 ∧
      (startBGM stLow Intensity.high 9 true 4 (fun _ => 0) (fun _ => 0)
        (fun _ => 0)).1.isPlaying = true ∧
      (startBGM stLow Intensity.high 9 true 4 (fun _ => 0) (fun _ => 0)
        (fun _ => 0)).1.timerActive = true ∧
      (startBGM stLow Intensity.high 9 true 4 (fun _ => 0) (fun _ => 0)
        (fun _ => 0)).2 = []) :=
  ⟨Or.inl rfl,
    startBGM_restart stLow Intensity.high 9 true 4 (fun _ => 0) (fun _ => 0) (fun _ => 0)
      (Or.inl rfl)⟩

end NeonSliceAudio
